import Mathlib

/-!
Verification of the soundtools-proxy cache-backed proxy pipeline.

The development embeds the two source variants of `src/routes/contentful.ts`
(the canonical variant with per-request configuration check and URL rewriting,
and the second variant with a module-level client and no rewriting), the cache
key generator, the URL rewriter `transformContentfulUrls`, and the cache store,
and proves or refutes the specified properties.
-/

/-! ## The literal string replacement performed by `transformContentfulUrls`

The source line is `data.replace(/images\.ctfassets\.net/g, 'images.soundtools.com')`:
a global, literal, left-to-right, non-overlapping substring replacement.
-/

/-- The upstream asset hostname that is searched for, as a character list. -/
def ctfHost : List Char := "images.ctfassets.net".data

/-- The public asset hostname that is substituted, as a character list. -/
def stHost : List Char := "images.soundtools.com".data

/-- The tail of `ctfHost` after its first character. -/
def ctfTail : List Char := "mages.ctfassets.net".data

/-- The tail of `stHost` after its first character. -/
def stTail : List Char := "mages.soundtools.com".data

/-- Boolean test that `p` is a prefix of `s`. -/
def listStartsWith : List Char → List Char → Bool
  | [], _ => true
  | _ :: _, [] => false
  | a :: as, b :: bs => a == b && listStartsWith as bs

/-- Boolean test that `pat` occurs as a contiguous substring of `s`. -/
def listOccurs (pat : List Char) : List Char → Bool
  | [] => listStartsWith pat []
  | c :: rest => listStartsWith pat (c :: rest) || listOccurs pat rest

/-- Fuel-indexed worker for the global replacement; the fuel is an upper bound
on the length of the remaining input, so the recursion is structural. -/
def replaceAllAux : Nat → List Char → List Char
  | _, [] => []
  | 0, s => s
  | fuel + 1, c :: rest =>
    if listStartsWith ctfHost (c :: rest) then
      stHost ++ replaceAllAux fuel (List.drop 19 rest)
    else
      c :: replaceAllAux fuel rest

/-- JavaScript `s.replace(/images\.ctfassets\.net/g, "images.soundtools.com")`
on character lists: leftmost, non-overlapping, global replacement. -/
def jsReplaceAll (s : List Char) : List Char := replaceAllAux s.length s

/-- The string-level replacement used by the URL rewriter. -/
def jsReplaceStr (s : String) : String := String.mk (jsReplaceAll s.data)

theorem listStartsWith_iff : ∀ p s : List Char, listStartsWith p s = true ↔ p <+: s
  | [], s => iff_of_true rfl ⟨s, rfl⟩
  | a :: as, [] => by
      simp only [listStartsWith]
      constructor
      · intro h; cases h
      · rintro ⟨t, ht⟩; exact absurd ht (List.cons_ne_nil _ _)
  | a :: as, b :: bs => by
      simp only [listStartsWith, Bool.and_eq_true, beq_iff_eq]
      constructor
      · rintro ⟨hab, h⟩
        obtain ⟨t, ht⟩ := (listStartsWith_iff as bs).1 h
        exact ⟨t, by rw [hab]; exact congrArg (b :: ·) ht⟩
      · rintro ⟨t, ht⟩
        injection ht with h1 h2
        exact ⟨h1, (listStartsWith_iff as bs).2 ⟨t, h2⟩⟩

theorem pfx_occ {a b : List Char} (h : a <+: b) : a <:+: b := by
  obtain ⟨t, ht⟩ := h
  exact ⟨[], t, ht⟩

theorem infix_cons_of {a t : List Char} {c : Char} (h : a <:+: t) : a <:+: c :: t := by
  obtain ⟨u, w, hw⟩ := h
  exact ⟨c :: u, w, congrArg (c :: ·) hw⟩

theorem listOccurs_iff : ∀ (pat s : List Char), listOccurs pat s = true ↔ pat <:+: s
  | pat, [] => by
      simp only [listOccurs]
      rw [listStartsWith_iff]
      constructor
      · exact pfx_occ
      · rintro ⟨u, w, hw⟩
        obtain ⟨hu, hw2⟩ := List.append_eq_nil.mp hw
        obtain ⟨_, hp2⟩ := List.append_eq_nil.mp hu
        exact ⟨w, by simp [hp2, hw2]⟩
  | pat, c :: rest => by
      simp only [listOccurs, Bool.or_eq_true]
      rw [listStartsWith_iff, listOccurs_iff]
      constructor
      · rintro (h | h)
        · exact pfx_occ h
        · exact infix_cons_of h
      · rintro ⟨u, w, hw⟩
        cases u with
        | nil => exact Or.inl ⟨w, hw⟩
        | cons d u2 =>
            injection hw with h1 h2
            exact Or.inr ⟨u2, w, h2⟩

theorem listOccurs_false_iff {pat s : List Char} :
    listOccurs pat s = false ↔ ¬ pat <:+: s := by
  rw [Bool.eq_false_iff]
  exact not_congr (listOccurs_iff pat s)

/-- The hostname splits off its first character. -/
theorem ctfHost_cons : ctfHost = 'i' :: ctfTail := by decide

/-- The replacement splits off its first character. -/
theorem stHost_cons : stHost = 'i' :: stTail := by decide

theorem ctfTail_no_i : 'i' ∉ ctfTail := by decide

theorem ctfTail_len : ctfTail.length = 19 := by decide

theorem ctfHost_len : ctfHost.length = 20 := by decide

theorem ctfTail_ne_nil : ctfTail ≠ [] := by decide

/-- No prefix of the hostname of length between 1 and 20 is a suffix of the
replacement string. -/
theorem take_host_not_suffix_repl :
    ∀ n, n < 21 → (ctfHost.take n <:+ stHost → n = 0) := by decide

/-- The hostname has no nonempty proper border: a simultaneous prefix and
suffix is empty or the whole pattern. -/
theorem host_border_free :
    ∀ n, n < 21 → (ctfHost.take n <:+ ctfHost → n = 0 ∨ n = 20) := by decide

/-- The hostname does not occur inside the replacement string. -/
theorem host_not_infix_repl : ¬ ctfHost <:+: stHost := by decide

theorem prefix_eq_take {a b : List Char} (h : a <+: b) : a = b.take a.length := by
  obtain ⟨t, rfl⟩ := h
  exact (List.take_left a t).symm

theorem pfx_len_le {a b : List Char} (h : a <+: b) : a.length ≤ b.length := by
  obtain ⟨t, rfl⟩ := h
  rw [List.length_append]
  exact Nat.le_add_right _ _

/-- A common prefix of the hostname that is also a suffix of the replacement
must be empty. -/
theorem pfx_host_sfx_repl {a : List Char} (hp : a <+: ctfHost) (hs : a <:+ stHost) :
    a = [] := by
  have ha : a = ctfHost.take a.length := prefix_eq_take hp
  have hlen : a.length < 21 := by
    have := pfx_len_le hp
    rw [ctfHost_len] at this
    omega
  have h0 : a.length = 0 := take_host_not_suffix_repl a.length hlen (ha ▸ hs)
  exact List.length_eq_zero.mp h0

/-- A common prefix and suffix of the hostname is empty or the whole hostname. -/
theorem pfx_sfx_host {a : List Char} (hp : a <+: ctfHost) (hs : a <:+ ctfHost) :
    a = [] ∨ a = ctfHost := by
  have ha : a = ctfHost.take a.length := prefix_eq_take hp
  have hlen : a.length < 21 := by
    have := pfx_len_le hp
    rw [ctfHost_len] at this
    omega
  rcases host_border_free a.length hlen (ha ▸ hs) with h0 | h20
  · exact Or.inl (List.length_eq_zero.mp h0)
  · refine Or.inr ?_
    rw [ha, h20, ← ctfHost_len]
    exact List.take_length ctfHost

theorem replaceAllAux_fuel (f : Nat) : ∀ (g : Nat) (s : List Char),
    s.length ≤ f → s.length ≤ g → replaceAllAux f s = replaceAllAux g s := by
  induction f with
  | zero =>
      intro g s hf _
      have hs : s = [] := List.length_eq_zero.mp (Nat.le_zero.mp hf)
      subst hs
      cases g <;> rfl
  | succ f ih =>
      intro g s hf hg
      cases s with
      | nil => cases g <;> rfl
      | cons c rest =>
          have hg1 : 1 ≤ g := by
            have : (c :: rest).length = rest.length + 1 := rfl
            omega
          obtain ⟨g2, rfl⟩ : ∃ g2, g = g2 + 1 := ⟨g - 1, by omega⟩
          have hrf : rest.length ≤ f := by
            have : (c :: rest).length = rest.length + 1 := rfl
            omega
          have hrg : rest.length ≤ g2 := by
            have : (c :: rest).length = rest.length + 1 := rfl
            omega
          have hdf : (List.drop 19 rest).length ≤ f := by
            rw [List.length_drop]
            omega
          have hdg : (List.drop 19 rest).length ≤ g2 := by
            rw [List.length_drop]
            omega
          simp only [replaceAllAux]
          cases hsw : listStartsWith ctfHost (c :: rest) with
          | true =>
              simp only [hsw, if_true]
              rw [ih g2 (List.drop 19 rest) hdf hdg]
          | false =>
              simp only [hsw, Bool.false_eq_true, if_false]
              rw [ih g2 rest hrf hrg]

theorem jsReplaceAll_nil : jsReplaceAll [] = [] := rfl

theorem jsReplaceAll_cons (c : Char) (rest : List Char) :
    jsReplaceAll (c :: rest) =
      if listStartsWith ctfHost (c :: rest) then
        stHost ++ jsReplaceAll (List.drop 19 rest)
      else
        c :: jsReplaceAll rest := by
  show replaceAllAux (rest.length + 1) (c :: rest) = _
  simp only [replaceAllAux]
  cases hsw : listStartsWith ctfHost (c :: rest) with
  | true =>
      simp only [hsw, if_true]
      exact congrArg (stHost ++ ·)
        (replaceAllAux_fuel rest.length (List.drop 19 rest).length (List.drop 19 rest)
          (by rw [List.length_drop]; omega) le_rfl)
  | false =>
      simp only [hsw, Bool.false_eq_true, if_false]
      rfl

/-- If the hostname does not occur in `s`, the replacement leaves `s` alone. -/
theorem jsReplaceAll_of_no_occ : ∀ s : List Char, ¬ ctfHost <:+: s → jsReplaceAll s = s := by
  intro s
  induction s with
  | nil => intro _; exact jsReplaceAll_nil
  | cons c rest ih =>
      intro h
      rw [jsReplaceAll_cons]
      have hsw : listStartsWith ctfHost (c :: rest) = false := by
        rw [Bool.eq_false_iff]
        intro hw
        exact h (pfx_occ ((listStartsWith_iff _ _).1 hw))
      simp only [hsw, Bool.false_eq_true, if_false]
      rw [ih (fun hocc => h (infix_cons_of hocc))]

/-- A nonempty suffix of the hostname's tail that is a prefix of a replacement
output is already a prefix of the input: the replacement string starts with the
character `i`, which never occurs in the hostname's tail. -/
theorem tail_pfx_lift : ∀ (n : Nat) (rest : List Char), rest.length ≤ n →
    ∀ q : List Char, q ≠ [] → q <:+ ctfTail → q <+: jsReplaceAll rest → q <+: rest := by
  intro n
  induction n with
  | zero =>
      intro rest hr q hq _ hp
      have hrest : rest = [] := List.length_eq_zero.mp (Nat.le_zero.mp hr)
      subst hrest
      rw [jsReplaceAll_nil] at hp
      obtain ⟨t, ht⟩ := hp
      obtain ⟨hq0, _⟩ := List.append_eq_nil.mp ht
      exact absurd hq0 hq
  | succ n ih =>
      intro rest hr q hq hsfx hp
      cases rest with
      | nil =>
          rw [jsReplaceAll_nil] at hp
          obtain ⟨t, ht⟩ := hp
          obtain ⟨hq0, _⟩ := List.append_eq_nil.mp ht
          exact absurd hq0 hq
      | cons c r =>
          rw [jsReplaceAll_cons] at hp
          cases hsw : listStartsWith ctfHost (c :: r) with
          | true =>
              simp only [hsw, if_true] at hp
              cases q with
              | nil => exact absurd rfl hq
              | cons qh q2 =>
                  obtain ⟨t, ht⟩ := hp
                  rw [stHost_cons] at ht
                  injection ht with h1 _
                  obtain ⟨u, hu⟩ := hsfx
                  have hmem : qh ∈ ctfTail := by
                    rw [← hu]
                    exact List.mem_append_right u (List.mem_cons_self qh q2)
                  rw [h1] at hmem
                  exact absurd hmem ctfTail_no_i
          | false =>
              simp only [hsw, Bool.false_eq_true, if_false] at hp
              cases q with
              | nil => exact absurd rfl hq
              | cons qh q2 =>
                  obtain ⟨t, ht⟩ := hp
                  injection ht with h1 h2
                  cases q2 with
                  | nil =>
                      subst h1
                      exact ⟨r, rfl⟩
                  | cons q3 q4 =>
                      have hq2sfx : q3 :: q4 <:+ ctfTail := by
                        obtain ⟨u, hu⟩ := hsfx
                        exact ⟨u ++ [qh], by rw [List.append_assoc]; exact hu⟩
                      have hq2p : q3 :: q4 <+: jsReplaceAll r := ⟨t, h2⟩
                      have hrlen : r.length ≤ n := by
                        have : (c :: r).length = r.length + 1 := rfl
                        omega
                      obtain ⟨t2, ht2⟩ :=
                        ih r hrlen (q3 :: q4) (List.cons_ne_nil _ _) hq2sfx hq2p
                      exact ⟨t2, by rw [h1]; exact congrArg (c :: ·) ht2⟩

/-- If the hostname is not a prefix of `c :: rest`, it is not a prefix of
`c :: jsReplaceAll rest` either. -/
theorem not_pfx_preserved {c : Char} {rest : List Char}
    (h : ¬ ctfHost <+: c :: rest) : ¬ ctfHost <+: c :: jsReplaceAll rest := by
  intro hp
  rw [ctfHost_cons] at hp
  obtain ⟨t, ht⟩ := hp
  injection ht with h1 h2
  have hq : ctfTail <+: jsReplaceAll rest := ⟨t, h2⟩
  obtain ⟨t2, ht2⟩ :=
    tail_pfx_lift rest.length rest le_rfl ctfTail ctfTail_ne_nil ⟨[], rfl⟩ hq
  exact h ⟨t2, by rw [ctfHost_cons, ← h1]; exact congrArg ('i' :: ·) ht2⟩

/-- The output of the replacement never contains the hostname. -/
theorem jsReplaceAll_no_occ_aux : ∀ (n : Nat) (s : List Char), s.length ≤ n →
    ¬ ctfHost <:+: jsReplaceAll s := by
  intro n
  induction n with
  | zero =>
      intro s hs hocc
      have h0 : s = [] := List.length_eq_zero.mp (Nat.le_zero.mp hs)
      subst h0
      rw [jsReplaceAll_nil] at hocc
      obtain ⟨u, w, hw⟩ := hocc
      obtain ⟨hu, _⟩ := List.append_eq_nil.mp hw
      obtain ⟨_, hhost⟩ := List.append_eq_nil.mp hu
      exact absurd hhost (by decide)
  | succ n ih =>
      intro s hs hocc
      cases s with
      | nil =>
          rw [jsReplaceAll_nil] at hocc
          obtain ⟨u, w, hw⟩ := hocc
          obtain ⟨hu, _⟩ := List.append_eq_nil.mp hw
          obtain ⟨_, hhost⟩ := List.append_eq_nil.mp hu
          exact absurd hhost (by decide)
      | cons c rest =>
          have hrlen : rest.length ≤ n := by
            have : (c :: rest).length = rest.length + 1 := rfl
            omega
          rw [jsReplaceAll_cons] at hocc
          cases hsw : listStartsWith ctfHost (c :: rest) with
          | false =>
              simp only [hsw, Bool.false_eq_true, if_false] at hocc
              obtain ⟨u, w, hw⟩ := hocc
              cases u with
              | nil =>
                  have hnp : ¬ ctfHost <+: c :: rest := by
                    intro hpp
                    rw [← listStartsWith_iff] at hpp
                    rw [hpp] at hsw
                    cases hsw
                  exact not_pfx_preserved hnp ⟨w, hw⟩
              | cons d u2 =>
                  injection hw with _ h2
                  exact ih rest hrlen ⟨u2, w, h2⟩
          | true =>
              simp only [hsw, if_true] at hocc
              have ihX : ¬ ctfHost <:+: jsReplaceAll (List.drop 19 rest) :=
                ih (List.drop 19 rest) (by rw [List.length_drop]; omega)
              obtain ⟨u, w, hw⟩ := hocc
              rw [List.append_assoc] at hw
              rcases List.append_eq_append_iff.mp hw with ⟨z, hst, hcw⟩ | ⟨z, hu, hX⟩
              · rcases List.append_eq_append_iff.mp hcw with ⟨y, hz, _⟩ | ⟨y, hch, hXy⟩
                · exact host_not_infix_repl ⟨u, y, by rw [hst, hz, List.append_assoc]⟩
                · have hz0 : z = [] :=
                    pfx_host_sfx_repl ⟨y, hch.symm⟩ ⟨u, hst.symm⟩
                  subst hz0
                  have hcy : ctfHost = y := hch
                  exact ihX ⟨[], w, by
                    rw [hXy, ← hcy]
                    rfl⟩
              · exact ihX ⟨z, w, by rw [hX, List.append_assoc]⟩

theorem jsReplaceAll_no_occ (s : List Char) : ¬ ctfHost <:+: jsReplaceAll s :=
  jsReplaceAll_no_occ_aux s.length s le_rfl

/-- Global replacement of the hostname is idempotent on character lists. -/
theorem jsReplaceAll_idem (s : List Char) :
    jsReplaceAll (jsReplaceAll s) = jsReplaceAll s :=
  jsReplaceAll_of_no_occ _ (jsReplaceAll_no_occ s)

/-- Each occurrence of the hostname after a host-free block is rewritten to the
replacement string, with the surrounding content untouched. -/
theorem jsReplaceAll_decomp : ∀ (u : List Char), ¬ ctfHost <:+: u →
    ∀ v, jsReplaceAll (u ++ ctfHost ++ v) = u ++ stHost ++ jsReplaceAll v := by
  intro u
  induction u with
  | nil =>
      intro _ v
      show jsReplaceAll (ctfHost ++ v) = stHost ++ jsReplaceAll v
      have hshape : ctfHost ++ v = 'i' :: (ctfTail ++ v) := by rw [ctfHost_cons]; rfl
      rw [hshape, jsReplaceAll_cons]
      have hsw : listStartsWith ctfHost ('i' :: (ctfTail ++ v)) = true := by
        rw [listStartsWith_iff]
        exact ⟨v, by rw [ctfHost_cons]; rfl⟩
      simp only [hsw, if_true]
      have hdrop : List.drop 19 (ctfTail ++ v) = v := by
        rw [← ctfTail_len]
        exact List.drop_left ctfTail v
      rw [hdrop]
  | cons c u2 ihu =>
      intro hu v
      have hshape : (c :: u2) ++ ctfHost ++ v = c :: (u2 ++ ctfHost ++ v) := rfl
      rw [hshape, jsReplaceAll_cons]
      have hnp : ¬ ctfHost <+: c :: (u2 ++ ctfHost ++ v) := by
        intro hp
        obtain ⟨t, ht⟩ := hp
        have ht2 : ctfHost ++ t = (c :: u2) ++ (ctfHost ++ v) := by
          rw [ht, List.append_assoc]
          rfl
        rcases List.append_eq_append_iff.mp ht2 with ⟨z, hcu, _⟩ | ⟨z, hch, hcv⟩
        · exact hu (pfx_occ ⟨z, hcu.symm⟩)
        · cases hz : z with
          | nil =>
              rw [hz, List.append_nil] at hch
              exact hu ⟨[], [], by rw [← hch]; rfl⟩
          | cons z0 z1 =>
              have hzs : z <:+ ctfHost := ⟨c :: u2, hch.symm⟩
              have hzlen : z.length ≤ ctfHost.length := by
                have := congrArg List.length hch
                rw [List.length_append] at this
                omega
              have hzp : z <+: ctfHost := by
                have hzpv : z <+: ctfHost ++ v := ⟨t, hcv.symm⟩
                have hztake : z = (ctfHost ++ v).take z.length := prefix_eq_take hzpv
                rw [List.take_append_of_le_length hzlen] at hztake
                have htd : ctfHost.take z.length ++ ctfHost.drop z.length = ctfHost :=
                  List.take_append_drop _ _
                rw [← hztake] at htd
                exact ⟨ctfHost.drop z.length, htd⟩
              rcases pfx_sfx_host hzp hzs with h0 | hfull
              · rw [hz] at h0; cases h0
              · rw [hfull] at hch
                have := congrArg List.length hch
                rw [List.length_append] at this
                have hcl : (c :: u2).length = u2.length + 1 := rfl
                omega
      have hsw : listStartsWith ctfHost (c :: (u2 ++ ctfHost ++ v)) = false := by
        rw [Bool.eq_false_iff]
        intro hw
        exact hnp ((listStartsWith_iff _ _).1 hw)
      simp only [hsw, Bool.false_eq_true, if_false]
      rw [ihu (fun hocc => hu (infix_cons_of hocc)) v]
      rfl

/-! ## JSON values and `transformContentfulUrls`

JSON payloads are trees of null, booleans, numbers, strings, arrays and
objects, mirroring what `axios` hands the route handlers. The rewriter in
`src/routes/contentful.ts` (first variant, lines 37-60) checks null/undefined,
then strings, then arrays, then objects, and returns anything else unchanged.
-/

inductive Json where
  | null
  | bool (b : Bool)
  | num (n : Int)
  | str (s : String)
  | arr (items : List Json)
  | obj (fields : List (String × Json))

mutual

/-- Embedding of `transformContentfulUrls` from `src/routes/contentful.ts`:
strings get the global hostname replacement, arrays map the transformation
over their items, objects rebuild each field with a transformed value (keys
untouched), and all other values pass through. -/
def transformContentfulUrls : Json → Json
  | .null => .null
  | .bool b => .bool b
  | .num n => .num n
  | .str s => .str (jsReplaceStr s)
  | .arr xs => .arr (transformList xs)
  | .obj kvs => .obj (transformFields kvs)

/-- Element-wise transformation of an array payload. -/
def transformList : List Json → List Json
  | [] => []
  | x :: xs => transformContentfulUrls x :: transformList xs

/-- Field-wise transformation of an object payload; keys are untouched. -/
def transformFields : List (String × Json) → List (String × Json)
  | [] => []
  | kv :: kvs => (kv.1, transformContentfulUrls kv.2) :: transformFields kvs

end

theorem transformList_eq_map (xs : List Json) :
    transformList xs = xs.map transformContentfulUrls := by
  induction xs with
  | nil => rfl
  | cons x xs ih => simp only [transformList, List.map]; rw [ih]

theorem transformFields_eq_map (kvs : List (String × Json)) :
    transformFields kvs = kvs.map (fun kv => (kv.1, transformContentfulUrls kv.2)) := by
  induction kvs with
  | nil => rfl
  | cons kv kvs ih => simp only [transformFields, List.map]; rw [ih]

theorem jsReplaceStr_idem (s : String) : jsReplaceStr (jsReplaceStr s) = jsReplaceStr s := by
  simp only [jsReplaceStr]
  rw [jsReplaceAll_idem]

mutual

theorem transform_idem : ∀ j : Json,
    transformContentfulUrls (transformContentfulUrls j) = transformContentfulUrls j
  | .null => rfl
  | .bool _ => rfl
  | .num _ => rfl
  | .str s => congrArg Json.str (jsReplaceStr_idem s)
  | .arr xs => congrArg Json.arr (transformList_idem xs)
  | .obj kvs => congrArg Json.obj (transformFields_idem kvs)

theorem transformList_idem : ∀ xs : List Json,
    transformList (transformList xs) = transformList xs
  | [] => rfl
  | x :: xs => by
      simp only [transformList]
      rw [transform_idem x, transformList_idem xs]

theorem transformFields_idem : ∀ kvs : List (String × Json),
    transformFields (transformFields kvs) = transformFields kvs
  | [] => rfl
  | kv :: kvs => by
      simp only [transformFields]
      rw [transform_idem kv.2, transformFields_idem kvs]

end

/-- Boolean test that a string contains the upstream asset hostname. -/
def hasHost (s : String) : Bool := listOccurs ctfHost s.data

mutual

/-- Does some string leaf (a string in value position) contain the upstream
asset hostname? -/
def leafHasHost : Json → Bool
  | .str s => hasHost s
  | .arr xs => leafHasHostList xs
  | .obj kvs => leafHasHostFields kvs
  | _ => false

def leafHasHostList : List Json → Bool
  | [] => false
  | x :: xs => leafHasHost x || leafHasHostList xs

def leafHasHostFields : List (String × Json) → Bool
  | [] => false
  | kv :: kvs => leafHasHost kv.2 || leafHasHostFields kvs

end

mutual

/-- Does any string anywhere in the value, object keys included, contain the
upstream asset hostname? -/
def anyStringHasHost : Json → Bool
  | .str s => hasHost s
  | .arr xs => anyStringHasHostList xs
  | .obj kvs => anyStringHasHostFields kvs
  | _ => false

def anyStringHasHostList : List Json → Bool
  | [] => false
  | x :: xs => anyStringHasHost x || anyStringHasHostList xs

def anyStringHasHostFields : List (String × Json) → Bool
  | [] => false
  | kv :: kvs => hasHost kv.1 || anyStringHasHost kv.2 || anyStringHasHostFields kvs

end

theorem hasHost_jsReplaceStr (s : String) : hasHost (jsReplaceStr s) = false := by
  simp only [hasHost, jsReplaceStr]
  exact listOccurs_false_iff.mpr (jsReplaceAll_no_occ s.data)

mutual

theorem leafNoHost : ∀ j : Json, leafHasHost (transformContentfulUrls j) = false
  | .null => rfl
  | .bool _ => rfl
  | .num _ => rfl
  | .str s => hasHost_jsReplaceStr s
  | .arr xs => leafNoHostList xs
  | .obj kvs => leafNoHostFields kvs

theorem leafNoHostList : ∀ xs : List Json, leafHasHostList (transformList xs) = false
  | [] => rfl
  | x :: xs => by
      simp only [transformList, leafHasHostList]
      rw [leafNoHost x, leafNoHostList xs]
      rfl

theorem leafNoHostFields : ∀ kvs : List (String × Json),
    leafHasHostFields (transformFields kvs) = false
  | [] => rfl
  | kv :: kvs => by
      simp only [transformFields, leafHasHostFields]
      rw [leafNoHost kv.2, leafNoHostFields kvs]
      rfl

end

/-! ## Cache key generation

`generateCacheKey` (both source variants, identical code) serializes the
request query with `new URLSearchParams(query).toString()` and concatenates
`contentful:` + path + `:` + query string. `URLSearchParams` serializes the
entries of the query record in insertion order, percent-encoding keys and
values in `application/x-www-form-urlencoded` form; a query record is embedded
here as its insertion-ordered list of key/value string pairs.
-/

/-- Hexadecimal digit character (uppercase), as produced by URL encoding. -/
def encodeHexDigit (n : Nat) : Char :=
  if n < 10 then Char.ofNat (48 + n) else Char.ofNat (55 + n)

/-- UTF-8 bytes of a character. -/
def utf8BytesOfChar (c : Char) : List Nat :=
  let n := c.toNat
  if n < 128 then [n]
  else if n < 2048 then [192 + n / 64, 128 + n % 64]
  else if n < 65536 then [224 + n / 4096, 128 + (n / 64) % 64, 128 + n % 64]
  else [240 + n / 262144, 128 + (n / 4096) % 64, 128 + (n / 64) % 64, 128 + n % 64]

/-- `application/x-www-form-urlencoded` encoding of one byte: space becomes
`+`, bytes for `*-._0-9A-Za-z` stay literal, everything else becomes `%XX`. -/
def encodeByte (b : Nat) : List Char :=
  if b = 32 then ['+']
  else if (48 ≤ b ∧ b ≤ 57) ∨ (65 ≤ b ∧ b ≤ 90) ∨ (97 ≤ b ∧ b ≤ 122)
      ∨ b = 42 ∨ b = 45 ∨ b = 46 ∨ b = 95 then [Char.ofNat b]
  else ['%', encodeHexDigit (b / 16), encodeHexDigit (b % 16)]

/-- Form-url-encoding of a string, applied by `URLSearchParams` to each key
and value. -/
def formUrlEncode (s : String) : String :=
  String.mk ((s.data.map (fun c => ((utf8BytesOfChar c).map encodeByte).flatten)).flatten)

/-- `new URLSearchParams(query).toString()`: serialize the insertion-ordered
entries as `k=v` joined by `&`. -/
def urlSearchParamsToString (q : List (String × String)) : String :=
  String.intercalate "&" (q.map (fun kv => formUrlEncode kv.1 ++ "=" ++ formUrlEncode kv.2))

/-- Embedding of `generateCacheKey` from `src/routes/contentful.ts`. -/
def generateCacheKey (path : String) (query : List (String × String)) : String :=
  "contentful:" ++ path ++ ":" ++ urlSearchParamsToString query

/-! ## Cache store

Modelled from the spec: the cache itself is the external `node-cache`
dependency (`new NodeCache({stdTTL: ...})` in `src/index.ts`), whose
implementation is not part of this repository; §4.3 of the spec gives its
contract: a mapping key → entry stamped with its store time, a single store
TTL, lazy expiry on read (absent once the age exceeds the TTL), insert-or-
replace `set`, and `flushAll` emptying the store.
-/

structure CacheStore where
  entries : List (String × Json × Nat)
  stdTTL : Nat

/-- Modelled from the spec: `get` returns the stored value while its age does
not exceed the TTL, and is absent otherwise (§4.3). -/
def CacheStore.get (c : CacheStore) (k : String) (now : Nat) : Option Json :=
  match c.entries.find? (fun e => e.1 == k) with
  | some e => if now ≤ e.2.2 + c.stdTTL then some e.2.1 else none
  | none => none

/-- Modelled from the spec: `set` inserts or replaces the entry for the key,
stamping the current time (§4.3). -/
def CacheStore.set (c : CacheStore) (k : String) (v : Json) (now : Nat) : CacheStore :=
  { c with entries := (k, v, now) :: c.entries }

/-- Modelled from the spec: `flushAll` empties the store (§4.3). -/
def CacheStore.flushAll (c : CacheStore) : CacheStore :=
  { c with entries := [] }

/-! ## The proxy handlers

Both variants of `contentfulProxy` are embedded as pure request functions:
the inputs are the process environment as visible at request time, the query,
the cache state, the current time, and the outcome the upstream `axios` call
would have (success payload, HTTP error response, or connection failure);
the output is the HTTP status, the JSON body, the new cache state, and
whether the upstream call was made.
-/

/-- Process environment variables consumed by `createContentfulClient`. -/
structure Env where
  spaceId : Option String
  accessToken : Option String

/-- JavaScript truthiness of an environment string: an absent variable and the
empty string are falsy. -/
def presentStr : Option String → Bool
  | none => false
  | some s => s != ""

/-- The check in `createContentfulClient`:
`if (!CONTENTFUL_SPACE_ID || !CONTENTFUL_ACCESS_TOKEN) return null`. -/
def envConfigured (e : Env) : Bool :=
  presentStr e.spaceId && presentStr e.accessToken

/-- Result of the upstream `axios` call: success payload, an HTTP error
response (`error.response` present, carrying its status and optionally a
`message` field in its data), or a connection failure (timeout, network). -/
inductive FetchResult where
  | ok (data : Json)
  | httpError (status : Nat) (message : Option String)
  | connError

/-- JavaScript truthiness of a JSON value, as used by `if (cachedData)`. -/
def jsTruthy : Json → Bool
  | .null => false
  | .bool b => b
  | .num n => n != 0
  | .str s => s != ""
  | .arr _ => true
  | .obj _ => true

/-- JavaScript `x || fallback` on the optional upstream error message:
an absent or empty message yields the fallback. -/
def jsOrElse : Option String → String → String
  | some m, fb => if m = "" then fb else m
  | none, fb => fb

/-- Result of one handler invocation. -/
structure HandlerOutcome where
  status : Nat
  body : Json
  cache : CacheStore
  upstreamCalled : Bool

/-- The 500 body sent when `createContentfulClient` returns null. -/
def serverConfigErrorBody : Json :=
  .obj [("error", .str "Server Configuration Error"),
        ("message", .str "Contentful client not configured")]

/-- The body sent when the upstream responded with an error status:
`{error: 'Contentful API Error', message: data?.message || fallback, status}`. -/
def contentfulApiErrorBody (fallback : String) (status : Nat) (message : Option String) : Json :=
  .obj [("error", .str "Contentful API Error"),
        ("message", .str (jsOrElse message fallback)),
        ("status", .num status)]

/-- The 500 body sent when no upstream response exists (connection failure). -/
def internalErrorBody : Json :=
  .obj [("error", .str "Internal Server Error"),
        ("message", .str "Failed to connect to Contentful API")]

/-- The fetch-transform-store-respond path of the canonical (first) variant
handlers, reached when the cache did not serve the request. -/
def fetchOutcome (fallback key : String) (cache : CacheStore) (now : Nat) :
    FetchResult → HandlerOutcome
  | .ok d =>
      let t := transformContentfulUrls d
      { status := 200, body := t, cache := cache.set key t now, upstreamCalled := true }
  | .httpError s m =>
      { status := s, body := contentfulApiErrorBody fallback s m,
        cache := cache, upstreamCalled := true }
  | .connError =>
      { status := 500, body := internalErrorBody, cache := cache, upstreamCalled := true }

/-- Embedding of one canonical-variant (first variant) route handler of
`contentfulProxy`. The five resource handlers differ only in the resource
path used for the cache key and in the fallback error message, so both are
parameters. The environment is read at request time because the handler
invokes `createContentfulClient()` on every request. -/
def contentfulProxyHandler (resourcePath fallback : String) (env : Env)
    (query : List (String × String)) (cache : CacheStore) (now : Nat)
    (fetch : FetchResult) : HandlerOutcome :=
  if envConfigured env then
    let key := generateCacheKey resourcePath query
    match cache.get key now with
    | some cached =>
        if jsTruthy cached then
          { status := 200, body := transformContentfulUrls cached,
            cache := cache, upstreamCalled := false }
        else
          fetchOutcome fallback key cache now fetch
    | none => fetchOutcome fallback key cache now fetch
  else
    { status := 500, body := serverConfigErrorBody, cache := cache, upstreamCalled := false }

/-- The fetch-store-respond path of the second source variant (no URL
transformation of the payload). -/
def fetchOutcomeV2 (fallback key : String) (cache : CacheStore) (now : Nat) :
    FetchResult → HandlerOutcome
  | .ok d =>
      { status := 200, body := d, cache := cache.set key d now, upstreamCalled := true }
  | .httpError s m =>
      { status := s, body := contentfulApiErrorBody fallback s m,
        cache := cache, upstreamCalled := true }
  | .connError =>
      { status := 500, body := internalErrorBody, cache := cache, upstreamCalled := true }

/-- Embedding of one route handler of the second source variant of
`contentfulProxy`: the module-level `contentfulClient` is constructed
unconditionally at load time, so the handler consults no environment at all
and serves cached values untransformed. -/
def contentfulProxyHandlerV2 (resourcePath fallback : String)
    (query : List (String × String)) (cache : CacheStore) (now : Nat)
    (fetch : FetchResult) : HandlerOutcome :=
  let key := generateCacheKey resourcePath query
  match cache.get key now with
  | some cached =>
      if jsTruthy cached then
        { status := 200, body := cached, cache := cache, upstreamCalled := false }
      else
        fetchOutcomeV2 fallback key cache now fetch
  | none => fetchOutcomeV2 fallback key cache now fetch

/-- Did the cache lookup serve the request (an entry present, unexpired and
JS-truthy)? -/
def servedFromCache (c : CacheStore) (k : String) (now : Nat) : Bool :=
  match c.get k now with
  | some v => jsTruthy v
  | none => false

/-- Field lookup in a JSON object. -/
def Json.getField (j : Json) (k : String) : Option Json :=
  match j with
  | .obj kvs => (kvs.find? (fun kv => kv.1 == k)).map (fun kv => kv.2)
  | _ => none

/-! ## Handler behavior lemmas -/

theorem cacheGet_set (c : CacheStore) (k : String) (v : Json) (t now : Nat) :
    (c.set k v t).get k now = if now ≤ t + c.stdTTL then some v else none := by
  simp [CacheStore.get, CacheStore.set, List.find?]

theorem handler_unconfigured (p fb : String) (env : Env) (q : List (String × String))
    (cache : CacheStore) (now : Nat) (f : FetchResult)
    (hc : envConfigured env = false) :
    contentfulProxyHandler p fb env q cache now f =
      ⟨500, serverConfigErrorBody, cache, false⟩ := by
  simp only [contentfulProxyHandler, hc, Bool.false_eq_true, if_false]

theorem handler_miss (p fb : String) (env : Env) (q : List (String × String))
    (cache : CacheStore) (now : Nat) (f : FetchResult)
    (hc : envConfigured env = true)
    (hm : servedFromCache cache (generateCacheKey p q) now = false) :
    contentfulProxyHandler p fb env q cache now f =
      fetchOutcome fb (generateCacheKey p q) cache now f := by
  simp only [contentfulProxyHandler, hc, if_true]
  cases hg : cache.get (generateCacheKey p q) now with
  | none => simp [hg]
  | some v =>
      have hjt : jsTruthy v = false := by
        simpa [servedFromCache, hg] using hm
      simp [hg, hjt]

theorem handler_hit (p fb : String) (env : Env) (q : List (String × String))
    (cache : CacheStore) (now : Nat) (f : FetchResult) (v : Json)
    (hc : envConfigured env = true)
    (hg : cache.get (generateCacheKey p q) now = some v)
    (hjt : jsTruthy v = true) :
    contentfulProxyHandler p fb env q cache now f =
      ⟨200, transformContentfulUrls v, cache, false⟩ := by
  simp only [contentfulProxyHandler, hc, if_true]
  simp [hg, hjt]

theorem handlerV1_cache_unchanged_on_error (p fb : String) (env : Env)
    (q : List (String × String)) (cache : CacheStore) (now : Nat) (f : FetchResult)
    (hf : ∀ d, f ≠ FetchResult.ok d) :
    (contentfulProxyHandler p fb env q cache now f).cache = cache := by
  simp only [contentfulProxyHandler]
  cases hc : envConfigured env with
  | false => simp
  | true =>
      simp only [if_true]
      cases hg : cache.get (generateCacheKey p q) now with
      | none =>
          cases f with
          | ok d => exact absurd rfl (hf d)
          | httpError s m => simp [hg, fetchOutcome]
          | connError => simp [hg, fetchOutcome]
      | some v =>
          cases ht : jsTruthy v with
          | true => simp [hg, ht]
          | false =>
              cases f with
              | ok d => exact absurd rfl (hf d)
              | httpError s m => simp [hg, ht, fetchOutcome]
              | connError => simp [hg, ht, fetchOutcome]

theorem handlerV2_cache_unchanged_on_error (p fb : String)
    (q : List (String × String)) (cache : CacheStore) (now : Nat) (f : FetchResult)
    (hf : ∀ d, f ≠ FetchResult.ok d) :
    (contentfulProxyHandlerV2 p fb q cache now f).cache = cache := by
  simp only [contentfulProxyHandlerV2]
  cases hg : cache.get (generateCacheKey p q) now with
  | none =>
      cases f with
      | ok d => exact absurd rfl (hf d)
      | httpError s m => simp [hg, fetchOutcomeV2]
      | connError => simp [hg, fetchOutcomeV2]
  | some v =>
      cases ht : jsTruthy v with
      | true => simp [hg, ht]
      | false =>
          cases f with
          | ok d => exact absurd rfl (hf d)
          | httpError s m => simp [hg, ht, fetchOutcomeV2]
          | connError => simp [hg, ht, fetchOutcomeV2]

/-! ## Claim theorems -/

/-- C1 counterexample: `generateCacheKey` is not invariant to query insertion
order. The two-entry queries `a=1, b=2` and `b=2, a=1` contain the same
key/value pairs (they are permutations of each other) but serialize in
insertion order, producing the distinct keys `contentful:entries:a=1&b=2`
and `contentful:entries:b=2&a=1`. -/
theorem generateCacheKey_not_order_invariant :
    ([(("a" : String), ("1" : String)), ("b", "2")]).Perm [("b", "2"), ("a", "1")] ∧
    generateCacheKey "entries" [("a", "1"), ("b", "2")] ≠
      generateCacheKey "entries" [("b", "2"), ("a", "1")] := by
  constructor
  · exact List.Perm.swap _ _ _
  · decide

/-- C1 (amended): `generateCacheKey` is a pure, deterministic function of the
resource path and the insertion-ordered query serialization, but it is
sensitive to query insertion order: queries with the same key/value pairs in
different orders can produce different cache keys. -/
theorem generateCacheKey_deterministic_order_sensitive :
    (∀ (p : String) (q : List (String × String)),
        generateCacheKey p q = "contentful:" ++ p ++ ":" ++ urlSearchParamsToString q) ∧
    (∃ q1 q2 : List (String × String), q1.Perm q2 ∧
        generateCacheKey "entries" q1 ≠ generateCacheKey "entries" q2) := by
  refine ⟨fun _ _ => rfl, ⟨[("a", "1"), ("b", "2")], [("b", "2"), ("a", "1")], ?_, ?_⟩⟩
  · exact List.Perm.swap _ _ _
  · decide

/-- C2 counterexample: the upstream error body literals differ from the
claim. On `UpstreamError{404, "Not found"}` the handler's `error` field is
`Contentful API Error`, not `Upstream API Error`, and on a connection error
the `message` field is `Failed to connect to Contentful API`, not
`Failed to connect to upstream API`. -/
theorem upstream_error_body_literal_counterexample :
    ((contentfulProxyHandler "entries" "Failed to fetch entries" ⟨some "sid", some "tok"⟩ []
        (CacheStore.mk [] 300) 0 (.httpError 404 (some "Not found"))).body.getField "error" =
      some (Json.str "Contentful API Error")) ∧
    Json.str "Contentful API Error" ≠ Json.str "Upstream API Error" ∧
    ((contentfulProxyHandler "entries" "Failed to fetch entries" ⟨some "sid", some "tok"⟩ []
        (CacheStore.mk [] 300) 0 .connError).body.getField "message" =
      some (Json.str "Failed to connect to Contentful API")) ∧
    Json.str "Failed to connect to Contentful API" ≠
      Json.str "Failed to connect to upstream API" := by
  refine ⟨rfl, ?_, rfl, ?_⟩
  · intro h
    injection h with h2
    exact absurd h2 (by decide)
  · intro h
    injection h with h2
    exact absurd h2 (by decide)

/-- C2 (amended): when the handler reaches the upstream fetch (configured,
not served from cache) and the fetch fails with an HTTP error of status `s`
carrying a non-empty message `m`, the response has status `s` and body
`{error: "Contentful API Error", message: m, status: s}`; when the fetch
fails with a connection error, the response is HTTP 500 with
`{error: "Internal Server Error", message: "Failed to connect to Contentful API"}`. -/
theorem upstream_error_mapping (p fb : String) (env : Env) (q : List (String × String))
    (cache : CacheStore) (now : Nat)
    (hc : envConfigured env = true)
    (hm : servedFromCache cache (generateCacheKey p q) now = false) :
    (∀ (s : Nat) (m : String), m ≠ "" →
      (contentfulProxyHandler p fb env q cache now (.httpError s (some m))).status = s ∧
      (contentfulProxyHandler p fb env q cache now (.httpError s (some m))).body =
        Json.obj [("error", Json.str "Contentful API Error"), ("message", Json.str m),
          ("status", Json.num s)]) ∧
    ((contentfulProxyHandler p fb env q cache now .connError).status = 500 ∧
      (contentfulProxyHandler p fb env q cache now .connError).body =
        Json.obj [("error", Json.str "Internal Server Error"),
          ("message", Json.str "Failed to connect to Contentful API")]) := by
  constructor
  · intro s m hmne
    rw [handler_miss p fb env q cache now _ hc hm]
    constructor
    · rfl
    · simp [fetchOutcome, contentfulApiErrorBody, jsOrElse, hmne]
  · rw [handler_miss p fb env q cache now _ hc hm]
    exact ⟨rfl, rfl⟩

/-- Witness for the amended C2 at a concrete input. -/
theorem upstream_error_mapping_witness :
    envConfigured ⟨some "sid", some "tok"⟩ = true ∧
    servedFromCache (CacheStore.mk [] 300) (generateCacheKey "entries" []) 0 = false ∧
    ("Not found" : String) ≠ "" ∧
    (contentfulProxyHandler "entries" "Failed to fetch entries" ⟨some "sid", some "tok"⟩ []
        (CacheStore.mk [] 300) 0 (.httpError 404 (some "Not found"))).status = 404 :=
  ⟨by decide, by decide, by decide,
   ((upstream_error_mapping "entries" "Failed to fetch entries" ⟨some "sid", some "tok"⟩ []
      (CacheStore.mk [] 300) 0 (by decide) (by decide)).1 404 "Not found" (by decide)).1⟩

/-- C3 counterexample: the cache-hit check is JavaScript truthiness
(`if (cachedData)`), so a falsy transformed payload — here the JSON value
`false` — is stored but never served from cache: a second identical request
one time-unit later (well inside the 300-second TTL) invokes the upstream
client again. -/
theorem miss_then_hit_counterexample :
    (contentfulProxyHandler "entries" "Failed to fetch entries" ⟨some "sid", some "tok"⟩ []
        (CacheStore.mk [] 300) 0 (.ok (Json.bool false))).body = Json.bool false ∧
    (contentfulProxyHandler "entries" "Failed to fetch entries" ⟨some "sid", some "tok"⟩ []
        (contentfulProxyHandler "entries" "Failed to fetch entries" ⟨some "sid", some "tok"⟩ []
          (CacheStore.mk [] 300) 0 (.ok (Json.bool false))).cache 1
        (.ok (Json.bool false))).upstreamCalled = true := by
  exact ⟨rfl, by decide⟩

/-- C3 (amended): on a miss (configured, not served from cache) with a
successful fetch of `v`, the handler responds 200 with
`transformContentfulUrls v`, stores that transformed value under the derived
key, and calls upstream; a second identical request within the TTL window
finds the stored value and — provided the transformed payload is JS-truthy —
responds with the same transformed body without calling upstream again. -/
theorem miss_then_hit_within_ttl (p fb : String) (env : Env) (q : List (String × String))
    (cache : CacheStore) (now now2 : Nat) (v : Json) (f2 : FetchResult)
    (hc : envConfigured env = true)
    (hm : servedFromCache cache (generateCacheKey p q) now = false)
    (ht : jsTruthy (transformContentfulUrls v) = true)
    (httl : now2 ≤ now + cache.stdTTL) :
    (contentfulProxyHandler p fb env q cache now (.ok v)).status = 200 ∧
    (contentfulProxyHandler p fb env q cache now (.ok v)).body = transformContentfulUrls v ∧
    (contentfulProxyHandler p fb env q cache now (.ok v)).upstreamCalled = true ∧
    (contentfulProxyHandler p fb env q cache now (.ok v)).cache.get
        (generateCacheKey p q) now2 = some (transformContentfulUrls v) ∧
    (contentfulProxyHandler p fb env q
        (contentfulProxyHandler p fb env q cache now (.ok v)).cache now2 f2).body =
      transformContentfulUrls v ∧
    (contentfulProxyHandler p fb env q
        (contentfulProxyHandler p fb env q cache now (.ok v)).cache now2 f2).upstreamCalled =
      false := by
  have h1 := handler_miss p fb env q cache now (.ok v) hc hm
  have hget : (contentfulProxyHandler p fb env q cache now (.ok v)).cache.get
      (generateCacheKey p q) now2 = some (transformContentfulUrls v) := by
    rw [h1]
    show (cache.set (generateCacheKey p q) (transformContentfulUrls v) now).get
        (generateCacheKey p q) now2 = _
    rw [cacheGet_set, if_pos httl]
  have h2 := handler_hit p fb env q
    (contentfulProxyHandler p fb env q cache now (.ok v)).cache now2 f2
    (transformContentfulUrls v) hc hget ht
  refine ⟨by rw [h1]; rfl, by rw [h1]; rfl, by rw [h1]; rfl, hget, ?_, by rw [h2]⟩
  rw [h2]
  show transformContentfulUrls (transformContentfulUrls v) = transformContentfulUrls v
  exact transform_idem v

/-- Witness for the amended C3 at a concrete input. -/
theorem miss_then_hit_within_ttl_witness :
    envConfigured ⟨some "sid", some "tok"⟩ = true ∧
    servedFromCache (CacheStore.mk [] 300) (generateCacheKey "entries" []) 0 = false ∧
    jsTruthy (transformContentfulUrls
      (Json.str "https://images.ctfassets.net/pic.png")) = true ∧
    (1 : Nat) ≤ 0 + (CacheStore.mk [] 300).stdTTL ∧
    (contentfulProxyHandler "entries" "Failed to fetch entries" ⟨some "sid", some "tok"⟩ []
        (contentfulProxyHandler "entries" "Failed to fetch entries" ⟨some "sid", some "tok"⟩ []
          (CacheStore.mk [] 300) 0
          (.ok (Json.str "https://images.ctfassets.net/pic.png"))).cache 1
        .connError).upstreamCalled = false :=
  ⟨by decide, by decide, by decide, by decide,
   (miss_then_hit_within_ttl "entries" "Failed to fetch entries" ⟨some "sid", some "tok"⟩ []
      (CacheStore.mk [] 300) 0 1 (Json.str "https://images.ctfassets.net/pic.png") .connError
      (by decide) (by decide) (by decide) (by decide)).2.2.2.2.2⟩

/-- C4 counterexample: the second source variant performs no configuration
check at all — `contentfulClient` is built at module load whatever the
environment holds — so with absent credentials its `/entries` handler still
attempts the upstream call (which then fails upstream, here with 401), and
the response error is `Contentful API Error`, not `Server Configuration
Error`. -/
theorem variant2_no_config_check_counterexample :
    (contentfulProxyHandlerV2 "entries" "Failed to fetch entries" [] (CacheStore.mk [] 432000) 0
        (.httpError 401 none)).upstreamCalled = true ∧
    (contentfulProxyHandlerV2 "entries" "Failed to fetch entries" [] (CacheStore.mk [] 432000) 0
        (.httpError 401 none)).status = 401 ∧
    (contentfulProxyHandlerV2 "entries" "Failed to fetch entries" [] (CacheStore.mk [] 432000) 0
        (.httpError 401 none)).body.getField "error" =
      some (Json.str "Contentful API Error") :=
  ⟨rfl, rfl, rfl⟩

/-- C4 (amended): in the canonical (first) variant, if the credentials are
absent (or JS-falsy), every resource handler responds 500 with the
`Server Configuration Error` body, does not call upstream, and leaves the
cache untouched; the second variant performs no such check. -/
theorem config_error_fail_fast (p fb : String) (env : Env) (q : List (String × String))
    (cache : CacheStore) (now : Nat) (f : FetchResult)
    (hc : envConfigured env = false) :
    (contentfulProxyHandler p fb env q cache now f).status = 500 ∧
    (contentfulProxyHandler p fb env q cache now f).body =
      Json.obj [("error", Json.str "Server Configuration Error"),
        ("message", Json.str "Contentful client not configured")] ∧
    (contentfulProxyHandler p fb env q cache now f).upstreamCalled = false ∧
    (contentfulProxyHandler p fb env q cache now f).cache = cache := by
  rw [handler_unconfigured p fb env q cache now f hc]
  exact ⟨rfl, rfl, rfl, rfl⟩

/-- Witness for the amended C4 at a concrete input. -/
theorem config_error_fail_fast_witness :
    envConfigured ⟨none, some "tok"⟩ = false ∧
    (contentfulProxyHandler "entries" "Failed to fetch entries" ⟨none, some "tok"⟩ []
        (CacheStore.mk [] 300) 0 (.ok Json.null)).upstreamCalled = false :=
  ⟨by decide,
   (config_error_fail_fast "entries" "Failed to fetch entries" ⟨none, some "tok"⟩ []
      (CacheStore.mk [] 300) 0 (.ok Json.null) (by decide)).2.2.1⟩

/-- C5: the URL rewriter is idempotent: applying `transformContentfulUrls`
twice gives the same result as applying it once, for every JSON value. -/
theorem transformContentfulUrls_idempotent (v : Json) :
    transformContentfulUrls (transformContentfulUrls v) = transformContentfulUrls v :=
  transform_idem v

/-- C6: the URL rewriter preserves structure. Null and non-string scalars
pass through unchanged; arrays map the rewrite element-wise, preserving order
and length; objects keep their key list with only values rewritten; every
string leaf undergoes the literal global replacement, which leaves host-free
strings unchanged, removes every occurrence of the upstream hostname, and
rewrites each occurrence after a host-free block to the public hostname with
the surrounding content untouched. -/
theorem transformContentfulUrls_structure :
    (transformContentfulUrls .null = .null) ∧
    (∀ b, transformContentfulUrls (.bool b) = .bool b) ∧
    (∀ n : Int, transformContentfulUrls (.num n) = .num n) ∧
    (∀ s : String, transformContentfulUrls (.str s) = .str (jsReplaceStr s)) ∧
    (∀ xs : List Json,
        transformContentfulUrls (.arr xs) = .arr (xs.map transformContentfulUrls) ∧
        (xs.map transformContentfulUrls).length = xs.length) ∧
    (∀ kvs : List (String × Json),
        transformContentfulUrls (.obj kvs) =
          .obj (kvs.map (fun kv => (kv.1, transformContentfulUrls kv.2))) ∧
        (kvs.map (fun kv => (kv.1, transformContentfulUrls kv.2))).map Prod.fst =
          kvs.map Prod.fst) ∧
    (∀ s : List Char, listOccurs ctfHost s = false → jsReplaceAll s = s) ∧
    (∀ s : List Char, listOccurs ctfHost (jsReplaceAll s) = false) ∧
    (∀ u v : List Char, listOccurs ctfHost u = false →
        jsReplaceAll (u ++ ctfHost ++ v) = u ++ stHost ++ jsReplaceAll v) := by
  refine ⟨rfl, fun _ => rfl, fun _ => rfl, fun _ => rfl, fun xs => ⟨?_, ?_⟩,
    fun kvs => ⟨?_, ?_⟩, fun s hs => ?_, fun s => ?_, fun u v hu => ?_⟩
  · show Json.arr (transformList xs) = _
    rw [transformList_eq_map]
  · exact List.length_map xs transformContentfulUrls
  · show Json.obj (transformFields kvs) = _
    rw [transformFields_eq_map]
  · rw [List.map_map]
    rfl
  · exact jsReplaceAll_of_no_occ s (listOccurs_false_iff.mp hs)
  · exact listOccurs_false_iff.mpr (jsReplaceAll_no_occ s)
  · exact jsReplaceAll_decomp u (listOccurs_false_iff.mp hu) v

/-- Witness for C6: the conditional string clauses at concrete inputs. -/
theorem transformContentfulUrls_structure_witness :
    listOccurs ctfHost "abc".data = false ∧
    jsReplaceAll "abc".data = "abc".data ∧
    listOccurs ctfHost "x".data = false ∧
    jsReplaceAll ("x".data ++ ctfHost ++ "y".data) =
      "x".data ++ stHost ++ jsReplaceAll "y".data :=
  ⟨by decide, transformContentfulUrls_structure.2.2.2.2.2.2.1 "abc".data (by decide),
   by decide, transformContentfulUrls_structure.2.2.2.2.2.2.2.2 "x".data "y".data (by decide)⟩

/-- C7: the cache store round-trips a freshly set value while the TTL has not
elapsed, reports it absent once the TTL has elapsed, and reports every key
absent after `flushAll`. The `node-cache` dependency is not part of this
repository; the store is modelled from the contract in §4.3 of the spec. -/
theorem cacheStore_roundtrip_expiry_flush :
    (∀ (c : CacheStore) (k : String) (v : Json) (t now : Nat),
        now ≤ t + c.stdTTL → (c.set k v t).get k now = some v) ∧
    (∀ (c : CacheStore) (k : String) (v : Json) (t now : Nat),
        t + c.stdTTL < now → (c.set k v t).get k now = none) ∧
    (∀ (c : CacheStore) (k : String) (now : Nat), c.flushAll.get k now = none) := by
  refine ⟨?_, ?_, ?_⟩
  · intro c k v t now h
    rw [cacheGet_set, if_pos h]
  · intro c k v t now h
    rw [cacheGet_set, if_neg (by omega)]
  · intro c k now
    rfl

/-- Witness for C7: round-trip and expiry at concrete times. -/
theorem cacheStore_roundtrip_expiry_flush_witness :
    ((0 : Nat) ≤ 0 + (CacheStore.mk [] 300).stdTTL) ∧
    ((CacheStore.mk [] 300).set "k" Json.null 0).get "k" 0 = some Json.null ∧
    (0 + (CacheStore.mk [] 300).stdTTL < 301) ∧
    ((CacheStore.mk [] 300).set "k" Json.null 0).get "k" 301 = none :=
  ⟨by decide,
   cacheStore_roundtrip_expiry_flush.1 (CacheStore.mk [] 300) "k" Json.null 0 0 (by decide),
   by decide,
   cacheStore_roundtrip_expiry_flush.2.1 (CacheStore.mk [] 300) "k" Json.null 0 301 (by decide)⟩

/-- C8 counterexample: the canonical-variant handler invokes
`createContentfulClient()` — which reads `process.env` — inside every request,
so its behavior is a function of the environment as it stands at request
time, not of a snapshot taken at process start: the same request against the
same cache and the same upstream result yields 200 under a configured
environment and 500 under a cleared one. -/
theorem handler_env_request_time_counterexample :
    (contentfulProxyHandler "entries" "Failed to fetch entries" ⟨some "sid", some "tok"⟩ []
        (CacheStore.mk [] 300) 0 (.ok (Json.str "hello"))).status = 200 ∧
    (contentfulProxyHandler "entries" "Failed to fetch entries" ⟨none, none⟩ []
        (CacheStore.mk [] 300) 0 (.ok (Json.str "hello"))).status = 500 :=
  ⟨rfl, rfl⟩

/-- C8 (amended): in the canonical variant the credential is re-read from the
environment on every request: an unconfigured environment at request time
makes any handler fail fast with the configuration-error body, and two
different request-time environments can produce different responses to the
same request. -/
theorem handler_reads_env_per_request :
    (∀ (p fb : String) (env : Env) (q : List (String × String)) (cache : CacheStore)
        (now : Nat) (f : FetchResult), envConfigured env = false →
        (contentfulProxyHandler p fb env q cache now f).body = serverConfigErrorBody ∧
        (contentfulProxyHandler p fb env q cache now f).upstreamCalled = false) ∧
    (∃ e1 e2 : Env,
        (contentfulProxyHandler "entries" "Failed to fetch entries" e1 []
            (CacheStore.mk [] 300) 0 (.ok Json.null)).status ≠
          (contentfulProxyHandler "entries" "Failed to fetch entries" e2 []
            (CacheStore.mk [] 300) 0 (.ok Json.null)).status) := by
  constructor
  · intro p fb env q cache now f hc
    rw [handler_unconfigured p fb env q cache now f hc]
    exact ⟨rfl, rfl⟩
  · exact ⟨⟨some "sid", some "tok"⟩, ⟨none, none⟩, by decide⟩

/-- Witness for the amended C8 at a concrete input. -/
theorem handler_reads_env_per_request_witness :
    envConfigured ⟨none, none⟩ = false ∧
    (contentfulProxyHandler "entries" "Failed to fetch entries" ⟨none, none⟩ []
        (CacheStore.mk [] 300) 0 .connError).upstreamCalled = false :=
  ⟨by decide,
   (handler_reads_env_per_request.1 "entries" "Failed to fetch entries" ⟨none, none⟩ []
      (CacheStore.mk [] 300) 0 .connError (by decide)).2⟩

/-- C9: error atomicity — when the upstream fetch fails, with an HTTP error
or a connection error, both handler variants leave the cache exactly as it
was: no entry is written, replaced or removed. -/
theorem upstream_failure_leaves_cache_unchanged (p fb : String) (env : Env)
    (q : List (String × String)) (cache : CacheStore) (now : Nat) (s : Nat)
    (m : Option String) :
    (contentfulProxyHandler p fb env q cache now (.httpError s m)).cache = cache ∧
    (contentfulProxyHandler p fb env q cache now .connError).cache = cache ∧
    (contentfulProxyHandlerV2 p fb q cache now (.httpError s m)).cache = cache ∧
    (contentfulProxyHandlerV2 p fb q cache now .connError).cache = cache :=
  ⟨handlerV1_cache_unchanged_on_error p fb env q cache now _
      (fun _ h => FetchResult.noConfusion h),
   handlerV1_cache_unchanged_on_error p fb env q cache now _
      (fun _ h => FetchResult.noConfusion h),
   handlerV2_cache_unchanged_on_error p fb q cache now _
      (fun _ h => FetchResult.noConfusion h),
   handlerV2_cache_unchanged_on_error p fb q cache now _
      (fun _ h => FetchResult.noConfusion h)⟩

/-- C10 counterexample: object keys are never rewritten, so a success
response can contain the upstream hostname inside a key string: with an
upstream payload whose only key is `images.ctfassets.net`, the canonical
handler responds 200 and the body still contains that hostname in a string
(the key), even though every string leaf was rewritten. -/
theorem success_body_key_host_counterexample :
    (contentfulProxyHandler "entries" "Failed to fetch entries" ⟨some "sid", some "tok"⟩ []
        (CacheStore.mk [] 300) 0
        (.ok (Json.obj [("images.ctfassets.net", Json.null)]))).status = 200 ∧
    anyStringHasHost (contentfulProxyHandler "entries" "Failed to fetch entries"
        ⟨some "sid", some "tok"⟩ [] (CacheStore.mk [] 300) 0
        (.ok (Json.obj [("images.ctfassets.net", Json.null)]))).body = true :=
  ⟨rfl, by decide⟩

/-- C10 (amended): in the canonical variant, every 200 response body of a
resource handler is the output of `transformContentfulUrls` (served from
cache after re-transformation, or freshly transformed after a fetch), and
therefore no string leaf — no string in value position — contains the
upstream hostname; object keys are not rewritten and are exempt. The side
condition on `f` reflects that `axios` only produces an error response for
non-2xx statuses. -/
theorem success_body_transformed_leaf_host_free (p fb : String) (env : Env)
    (q : List (String × String)) (cache : CacheStore) (now : Nat) (f : FetchResult)
    (hf : ∀ (s : Nat) (m : Option String), f = FetchResult.httpError s m → s ≠ 200)
    (h200 : (contentfulProxyHandler p fb env q cache now f).status = 200) :
    (∃ d, (contentfulProxyHandler p fb env q cache now f).body =
        transformContentfulUrls d) ∧
    leafHasHost (contentfulProxyHandler p fb env q cache now f).body = false := by
  cases hc : envConfigured env with
  | false =>
      rw [handler_unconfigured p fb env q cache now f hc] at h200
      have h5 : (500 : Nat) = 200 := h200
      exact absurd h5 (by decide)
  | true =>
      cases hg : cache.get (generateCacheKey p q) now with
      | some v =>
          cases hjt : jsTruthy v with
          | true =>
              rw [handler_hit p fb env q cache now f v hc hg hjt]
              exact ⟨⟨v, rfl⟩, leafNoHost v⟩
          | false =>
              have hm : servedFromCache cache (generateCacheKey p q) now = false := by
                simp [servedFromCache, hg, hjt]
              rw [handler_miss p fb env q cache now f hc hm] at h200 ⊢
              cases f with
              | ok d => exact ⟨⟨d, rfl⟩, leafNoHost d⟩
              | httpError s m =>
                  have hs : s = 200 := h200
                  exact absurd hs (hf s m rfl)
              | connError =>
                  have h5 : (500 : Nat) = 200 := h200
                  exact absurd h5 (by decide)
      | none =>
          have hm : servedFromCache cache (generateCacheKey p q) now = false := by
            simp [servedFromCache, hg]
          rw [handler_miss p fb env q cache now f hc hm] at h200 ⊢
          cases f with
          | ok d => exact ⟨⟨d, rfl⟩, leafNoHost d⟩
          | httpError s m =>
              have hs : s = 200 := h200
              exact absurd hs (hf s m rfl)
          | connError =>
              have h5 : (500 : Nat) = 200 := h200
              exact absurd h5 (by decide)

/-- Witness for the amended C10 at a concrete input. -/
theorem success_body_transformed_leaf_host_free_witness :
    (∀ (s : Nat) (m : Option String),
        FetchResult.ok (Json.str "https://images.ctfassets.net/pic.png") =
          FetchResult.httpError s m → s ≠ 200) ∧
    (contentfulProxyHandler "entries" "Failed to fetch entries" ⟨some "sid", some "tok"⟩ []
        (CacheStore.mk [] 300) 0
        (.ok (Json.str "https://images.ctfassets.net/pic.png"))).status = 200 ∧
    leafHasHost (contentfulProxyHandler "entries" "Failed to fetch entries"
        ⟨some "sid", some "tok"⟩ [] (CacheStore.mk [] 300) 0
        (.ok (Json.str "https://images.ctfassets.net/pic.png"))).body = false :=
  ⟨fun _ _ h => FetchResult.noConfusion h, rfl,
   (success_body_transformed_leaf_host_free "entries" "Failed to fetch entries"
      ⟨some "sid", some "tok"⟩ [] (CacheStore.mk [] 300) 0
      (.ok (Json.str "https://images.ctfassets.net/pic.png"))
      (fun _ _ h => FetchResult.noConfusion h) rfl).2⟩
